import Mathlib

/-!
Verification of the `readingbricks` boolean tag-query system.

The repository supplies two source modules under `src/`:
`readingbricks/views.py` (the current Flask view layer) and
`readingbricks/infrastructure/flask/app_runner.py` (a historical launcher).
The boolean-query engine itself (`readingbricks.user_query_processing`,
class `LogicalQueriesHandler`) is referenced by `views.py` but its source is
not part of `src/`; definitions for it below are modelled from the spec and
say so in their doc comments.  Everything else is translated directly from
the Python source.
-/

deriving instance DecidableEq for Except

namespace ReadingBricks

/-! ## Safe tag-name character class (spec section 3, "Tag name") -/

/-- A character of the safe tag-name class: letters, digits, underscore. -/
def isTagChar (c : Char) : Bool :=
  c.isAlpha || c.isDigit || c = '_'

/-- A tag name lies in the safe character class when every character does. -/
def isSafeTagName (t : String) : Bool :=
  t.data.all isTagChar

/-! ## Views layer: SQL strings built by `page_for_tag`

`views.py` line 127 executes `f"SELECT note_id FROM {tag}"` and
`app_runner.py` line 89 executes `f"SELECT note_title FROM {tag}"`,
interpolating the route parameter `tag` directly. -/

/-- The SQL string executed by `page_for_tag` in `views.py` (line 127). -/
def pageForTagSQL (tag : String) : String :=
  "SELECT note_id FROM " ++ tag

/-- The SQL string executed by `page_for_tag` in `app_runner.py` (line 89). -/
def appRunnerPageForTagSQL (tag : String) : String :=
  "SELECT note_title FROM " ++ tag

/-! ## Tokenizer (modelled from the spec, section 4.1) -/

/-- Token of the query language (spec section 3, "Token"). -/
inductive Token where
  | tagLit (s : String)
  | andTok
  | orTok
  | notTok
  | lparen
  | rparen
deriving DecidableEq

/-- Lexing failure: position of the offending character and a reason. -/
structure LexErr where
  position : Nat
  reason : String
deriving DecidableEq

/-- Keyword recognition: `AND`, `OR`, `NOT` are case-sensitive literals,
any other maximal run of tag-name characters is a tag literal. -/
def wordToToken (w : String) : Token :=
  if w = "AND" then .andTok
  else if w = "OR" then .orTok
  else if w = "NOT" then .notTok
  else .tagLit w

/-- Flush the (reversed) accumulator of tag-name characters into a token,
or into nothing when no word was in progress. -/
def flushWord : List Char → List Token
  | [] => []
  | word => [wordToToken (String.mk word.reverse)]

/-- Modelled from the spec: the Tokenizer of the missing
`readingbricks.user_query_processing` engine.  Whitespace separates tokens,
parentheses are single-character tokens, maximal runs of safe tag-name
characters become keywords or tag literals, and any other character is a
`LexErr` at its position.  `word` is the reversed run of tag-name
characters currently in progress. -/
def tokenizeAux : List Char → Nat → List Char → Except LexErr (List Token)
  | [], _, word => .ok (flushWord word)
  | c :: rest, pos, word =>
    if isTagChar c then
      tokenizeAux rest (pos + 1) (c :: word)
    else if c = ' ' ∨ c = '\t' ∨ c = '\n' then
      (fun ts => flushWord word ++ ts) <$> tokenizeAux rest (pos + 1) []
    else if c = '(' then
      (fun ts => flushWord word ++ Token.lparen :: ts) <$>
        tokenizeAux rest (pos + 1) []
    else if c = ')' then
      (fun ts => flushWord word ++ Token.rparen :: ts) <$>
        tokenizeAux rest (pos + 1) []
    else
      .error ⟨pos, "character outside the tag-name class"⟩

/-- Tokenize a raw query string. -/
def tokenize (raw : String) : Except LexErr (List Token) :=
  tokenizeAux raw.data 0 []

/-! ## Parser (modelled from the spec, section 4.2) -/

/-- Boolean-expression AST (spec section 3, "AST node"). -/
inductive AST where
  | leaf (tag : String)
  | notN (child : AST)
  | andN (l r : AST)
  | orN (l r : AST)
deriving DecidableEq

/-- Parsing failure: what was expected and the tokens found there. -/
structure ParseErr where
  expected : String
  found : List Token
deriving DecidableEq

mutual

/-- Modelled from the spec: the recursive-descent Parser of the missing
`readingbricks.user_query_processing` engine, grammar
`Expr := Term (OR Term)*`, `Term := Factor (AND Factor)*`,
`Factor := NOT Factor | LPAREN Expr RPAREN | TagLiteral`.
The `Nat` argument is recursion fuel; `parse` below supplies enough fuel
that it can never run out on its input. -/
def parseExpr : Nat → List Token → Except ParseErr (AST × List Token)
  | 0, ts => .error ⟨"recursion fuel", ts⟩
  | fuel + 1, ts => do
    let (a, rest) ← parseTerm fuel ts
    parseExprLoop fuel a rest

/-- `(OR Term)*` continuation of `Expr`; left-associative. -/
def parseExprLoop : Nat → AST → List Token → Except ParseErr (AST × List Token)
  | 0, _, ts => .error ⟨"recursion fuel", ts⟩
  | fuel + 1, acc, ts =>
    match ts with
    | .orTok :: rest => do
      let (b, rest') ← parseTerm fuel rest
      parseExprLoop fuel (.orN acc b) rest'
    | _ => .ok (acc, ts)

/-- `Term := Factor (AND Factor)*`. -/
def parseTerm : Nat → List Token → Except ParseErr (AST × List Token)
  | 0, ts => .error ⟨"recursion fuel", ts⟩
  | fuel + 1, ts => do
    let (a, rest) ← parseFactor fuel ts
    parseTermLoop fuel a rest

/-- `(AND Factor)*` continuation of `Term`; left-associative. -/
def parseTermLoop : Nat → AST → List Token → Except ParseErr (AST × List Token)
  | 0, _, ts => .error ⟨"recursion fuel", ts⟩
  | fuel + 1, acc, ts =>
    match ts with
    | .andTok :: rest => do
      let (b, rest') ← parseFactor fuel rest
      parseTermLoop fuel (.andN acc b) rest'
    | _ => .ok (acc, ts)

/-- `Factor := NOT Factor | LPAREN Expr RPAREN | TagLiteral`. -/
def parseFactor : Nat → List Token → Except ParseErr (AST × List Token)
  | 0, ts => .error ⟨"recursion fuel", ts⟩
  | fuel + 1, ts =>
    match ts with
    | .notTok :: rest =>
      (fun p => (AST.notN p.1, p.2)) <$> parseFactor fuel rest
    | .lparen :: rest => do
      let (a, rest') ← parseExpr fuel rest
      match rest' with
      | .rparen :: rest'' => .ok (a, rest'')
      | other => .error ⟨"closing parenthesis", other⟩
    | .tagLit t :: rest => .ok (.leaf t, rest)
    | other => .error ⟨"operand", other⟩

end

/-- Modelled from the spec: `parse(tokens) -> AST`, failing with `ParseErr`
on empty input, misplaced operators, unbalanced parentheses, and trailing
unconsumed tokens. -/
def parse (ts : List Token) : Except ParseErr AST := do
  let (a, rest) ← parseExpr (3 * ts.length + 3) ts
  match rest with
  | [] => .ok a
  | other => .error ⟨"end of input", other⟩

/-! ## Index Adapter and Evaluator (modelled from the spec, sections 4.3, 4.4) -/

/-- Modelled from the spec: the Index Adapter over the external per-tag
storage relations.  `store t = none` means tag `t` has no backing relation
(unknown tag); `univ` is the universe of all known document ids, the basis
for NOT's relative complement. -/
structure IndexAdapter where
  store : String → Option (Finset String)
  univ : Finset String

/-- Failures of the Index Adapter's `lookup`. -/
inductive LookupError where
  | invalidTagName (tag : String)
  | unknownTag (tag : String)
deriving DecidableEq

/-- Modelled from the spec: `lookup` validates the tag name against the safe
character class before it addresses any storage relation; an
unknown-but-well-formed tag yields `unknownTag`, not a crash. -/
def IndexAdapter.lookup (idx : IndexAdapter) (tag : String) :
    Except LookupError (Finset String) :=
  if isSafeTagName tag then
    match idx.store tag with
    | some s => .ok s
    | none => .error (.unknownTag tag)
  else
    .error (.invalidTagName tag)

/-- Evaluation failure: only an invalid tag name aborts evaluation;
unknown tags degrade to the empty set (spec section 4.4). -/
inductive EvalErr where
  | invalidTagName (tag : String)
deriving DecidableEq

/-- Modelled from the spec: the recursive post-order Evaluator.  A leaf
resolves via `lookup`; `unknownTag` resolves to the empty set (the
reference policy), `invalidTagName` aborts; NOT is relative complement
against the universe, AND intersection, OR union. -/
def evaluate (idx : IndexAdapter) : AST → Except EvalErr (Finset String)
  | .leaf t =>
    match idx.lookup t with
    | .ok s => .ok s
    | .error (.unknownTag _) => .ok ∅
    | .error (.invalidTagName t') => .error (.invalidTagName t')
  | .notN c => do
    let s ← evaluate idx c
    .ok (idx.univ \ s)
  | .andN l r => do
    let sl ← evaluate idx l
    let sr ← evaluate idx r
    .ok (sl ∩ sr)
  | .orN l r => do
    let sl ← evaluate idx l
    let sr ← evaluate idx r
    .ok (sl ∪ sr)

/-- An AST is well-formed when every leaf tag lies in the safe character
class — exactly the tag literals the Tokenizer can produce. -/
def wellFormedAST : AST → Bool
  | .leaf t => isSafeTagName t
  | .notN c => wellFormedAST c
  | .andN l r => wellFormedAST l && wellFormedAST r
  | .orN l r => wellFormedAST l && wellFormedAST r

/-- Modelled from the spec: the same Evaluator contract with the opposite
evaluation order of independent subtrees — each binary node evaluates its
right child first and combines the subresults right-to-left. -/
def evaluateRL (idx : IndexAdapter) : AST → Except EvalErr (Finset String)
  | .leaf t =>
    match idx.lookup t with
    | .ok s => .ok s
    | .error (.unknownTag _) => .ok ∅
    | .error (.invalidTagName t') => .error (.invalidTagName t')
  | .notN c => do
    let s ← evaluateRL idx c
    .ok (idx.univ \ s)
  | .andN l r => do
    let sr ← evaluateRL idx r
    let sl ← evaluateRL idx l
    .ok (sr ∩ sl)
  | .orN l r => do
    let sr ← evaluateRL idx r
    let sl ← evaluateRL idx l
    .ok (sr ∪ sl)

/-! ## Storage-operation traces (spec sections 4.3, 5)

The engine's only storage capabilities are `lookup` and `universe`; the
state machine below also models the write operations the storage layer
itself has, so that "the engine never writes" is a statement about a
state-transition system in which writes genuinely change the state. -/

/-- Operations on the tag→document-id backing store. -/
inductive StorageOp where
  | selectFrom (tag : String)
  | selectUniverse
  | createTable (tag : String)
  | dropTable (tag : String)
  | insertRow (tag : String) (docId : String)
deriving DecidableEq

/-- The two `SELECT`-shaped operations are reads; the rest are writes. -/
def StorageOp.isRead : StorageOp → Bool
  | .selectFrom _ => true
  | .selectUniverse => true
  | .createTable _ => false
  | .dropTable _ => false
  | .insertRow _ _ => false

/-- State transition of the backing store under one operation.  Reads leave
the store unchanged; writes create, drop, or extend per-tag relations. -/
def applyOp (idx : IndexAdapter) : StorageOp → IndexAdapter
  | .selectFrom _ => idx
  | .selectUniverse => idx
  | .createTable t => ⟨fun u => if u = t then some ∅ else idx.store u, idx.univ⟩
  | .dropTable t => ⟨fun u => if u = t then none else idx.store u, idx.univ⟩
  | .insertRow t d =>
    ⟨fun u => if u = t then (idx.store u).map (insert d) else idx.store u,
     insert d idx.univ⟩

/-- Run a trace of storage operations left to right. -/
def applyOps (idx : IndexAdapter) (ops : List StorageOp) : IndexAdapter :=
  ops.foldl applyOp idx

/-- Modelled from the spec: the Evaluator instrumented with the trace of
storage operations it issues.  A leaf that fails validation issues no
operation at all (the tag never reaches storage); a successfully validated
leaf issues one `selectFrom`; NOT additionally consults the universe. -/
def evaluateT (idx : IndexAdapter) : AST → Except EvalErr (Finset String) × List StorageOp
  | .leaf t =>
    if isSafeTagName t then
      match idx.store t with
      | some s => (.ok s, [.selectFrom t])
      | none => (.ok ∅, [.selectFrom t])
    else
      (.error (.invalidTagName t), [])
  | .notN c =>
    match evaluateT idx c with
    | (.ok s, ops) => (.ok (idx.univ \ s), ops ++ [.selectUniverse])
    | (.error e, ops) => (.error e, ops)
  | .andN l r =>
    match evaluateT idx l with
    | (.error e, opsl) => (.error e, opsl)
    | (.ok sl, opsl) =>
      match evaluateT idx r with
      | (.error e, opsr) => (.error e, opsl ++ opsr)
      | (.ok sr, opsr) => (.ok (sl ∩ sr), opsl ++ opsr)
  | .orN l r =>
    match evaluateT idx l with
    | (.error e, opsl) => (.error e, opsl)
    | (.ok sl, opsl) =>
      match evaluateT idx r with
      | (.error e, opsr) => (.error e, opsl ++ opsr)
      | (.ok sr, opsr) => (.ok (sl ∪ sr), opsl ++ opsr)

/-! ## Query Facade (modelled from the spec, section 4.5) -/

/-- The facade's error taxonomy (spec section 7). -/
inductive QueryError where
  | lexError (e : LexErr)
  | parseError (e : ParseErr)
  | invalidTagName (tag : String)
  | storageFailure (msg : String)
deriving DecidableEq

/-- Modelled from the spec: the Query Facade `run`, wiring
tokenizer → parser → evaluator and short-circuiting to the first failure. -/
def run (idx : IndexAdapter) (raw : String) : Except QueryError (Finset String) :=
  match tokenize raw with
  | .error e => .error (.lexError e)
  | .ok ts =>
    match parse ts with
    | .error e => .error (.parseError e)
    | .ok ast =>
      match evaluate idx ast with
      | .error (.invalidTagName t) => .error (.invalidTagName t)
      | .ok s => .ok s

/-- Tokenize then parse: the AST-producing front half of the engine. -/
def parseQuery (raw : String) : Except QueryError AST :=
  match tokenize raw with
  | .error e => .error (.lexError e)
  | .ok ts =>
    match parse ts with
    | .error e => .error (.parseError e)
    | .ok ast => .ok ast

/-! ## Views layer (translated from `src/readingbricks/views.py`)

External collaborators (the filesystem of Markdown notes, the Misaka
Markdown renderer, Jinja templates, the app's home URL) are out of scope
per the spec and enter as fields of `ViewEnv`. -/

/-- External collaborators of the view layer.  `files` maps a note id to
the content of `{note_id}.md` when that file exists; `render` is the Misaka
Markdown-to-HTML renderer; `regularTemplate` renders
`regular_page.html` from a title and a content value (`none` models
Python's `None` reaching the template); `homeUrl` is `url_for('index')`. -/
structure ViewEnv where
  files : String → Option String
  render : String → String
  regularTemplate : String → Option String → String
  homeUrl : String

/-- First line of a string, including its newline (Python `readline()`). -/
def firstLineChars : List Char → List Char
  | [] => []
  | c :: cs => if c = '\n' then ['\n'] else c :: firstLineChars cs

/-- Remainder after the first line (Python `read()` after `readline()`). -/
def restAfterFirstLine : List Char → List Char
  | [] => []
  | c :: cs => if c = '\n' then cs else restAfterFirstLine cs

/-- `make_link_from_title`: `'## Title' -> '## [Title](URL)'`, where the
title is the first line stripped of leading `#`/space and trailing
newlines. -/
def make_link_from_title (homeUrl mdTitle : String) : String :=
  let noteTitle := String.mk
    (((mdTitle.data.dropWhile (fun c => c = '#' || c = ' ')).reverse.dropWhile
      (fun c => c = '\n')).reverse)
  "## " ++ "[" ++ noteTitle ++ "](" ++ homeUrl ++ "notes/" ++ noteTitle ++ ")\n"

/-- `activate_cross_links`: replace the reserved `__home_url__/` substring
with the actual home URL. -/
def activate_cross_links (homeUrl contentInMarkdown : String) : String :=
  contentInMarkdown.replace "__home_url__/" homeUrl

/-- `convert_note_from_markdown_to_html` (`views.py` lines 74-93): `none`
when the Markdown file for `noteId` does not exist, otherwise the rendered
HTML of the title-linked, cross-link-activated Markdown. -/
def convert_note_from_markdown_to_html (env : ViewEnv) (noteId : String) :
    Option String :=
  match env.files noteId with
  | none => none
  | some content =>
    let mdTitle := String.mk (firstLineChars content.data)
    let mdTitleAsLink := make_link_from_title env.homeUrl mdTitle
    let contentInMarkdown :=
      mdTitleAsLink ++ String.mk (restAfterFirstLine content.data)
    some (env.render (activate_cross_links env.homeUrl contentInMarkdown))

/-- The `.replace('</p>\n\n<ul>', '</p>\n<ul>')` post-processing applied to
every rendered template. -/
def fixUlSpacing (s : String) : String :=
  s.replace "</p>\n\n<ul>" "</p>\n<ul>"

/-- Pages the view layer can produce, by template. -/
inductive Page where
  | notes (html : String)
  | emptyResult (query : String)
  | invalidQuery (query : String)
  | notFound
deriving DecidableEq

/-- `page_with_note` (`views.py` lines 96-106): compress the title to a
note id, convert; a missing note renders `404.html`. -/
def page_with_note (env : ViewEnv) (compress : String → String)
    (noteTitle : String) : Page :=
  let noteId := compress noteTitle
  match convert_note_from_markdown_to_html env noteId with
  | none => .notFound
  | some contentInHtml =>
    .notes (fixUlSpacing (env.regularTemplate noteTitle (some contentInHtml)))

/-- Python `functools.reduce(lambda x, y: x + y, l)` over optional strings:
`none` as the overall result models the `TypeError` raised when `+` meets
`None`; the caller handles the empty-sequence `TypeError` separately. -/
def reduceAdd : Option String → List (Option String) → Option (Option String)
  | acc, [] => some acc
  | acc, x :: xs =>
    match acc, x with
    | some a, some b => reduceAdd (some (a ++ b)) xs
    | _, _ => none

/-- `page_for_list_of_ids` (`views.py` lines 109-117): convert every note,
fold the contents with `reduce` and no initial value, render the template.
`none` models an uncaught exception: `reduce` raises `TypeError` on an
empty sequence, and `+` raises when some note file was missing. -/
def page_for_list_of_ids (env : ViewEnv) (noteIds : List String)
    (pageTitle : String) : Option String :=
  let notesContent := noteIds.map (convert_note_from_markdown_to_html env)
  match notesContent with
  | [] => none
  | c :: cs =>
    (reduceAdd c cs).map
      (fun contentInHtml => fixUlSpacing (env.regularTemplate pageTitle contentInHtml))

/-- The page title computed by `page_for_tag`:
`(tag[0].upper() + tag[1:]).replace('_', ' ')`.  (Flask's `<tag>` route
converter never matches an empty segment, so `tag` is non-empty there.) -/
def titleize (tag : String) : String :=
  match tag.data with
  | [] => ""
  | c :: cs => (String.mk (c.toUpper :: cs)).replace "_" " "

/-- `page_for_tag` (`views.py` lines 120-134): execute
`pageForTagSQL tag` against the database — `db tag = none` models the
`sqlite3.OperationalError` of a missing relation, caught and rendered as
`404.html` — then hand the ids to `page_for_list_of_ids` with no emptiness
guard.  `none` models an uncaught exception escaping the route. -/
def page_for_tag (env : ViewEnv) (db : String → Option (List String))
    (tag : String) : Option Page :=
  match db tag with
  | none => some .notFound
  | some noteIds =>
    (page_for_list_of_ids env noteIds (titleize tag)).map .notes

/-- The default query substituted for an empty form submission
(`views.py` lines 145-146, Python `user_query or default`). -/
def defaultQuery : String :=
  "нейронные_сети AND (постановка_задачи OR байесовские_методы)"

/-- `user_query = user_query or default`: the caller-side default policy
applied before the engine is invoked. -/
def effectiveUserQuery (formQuery : String) : String :=
  if formQuery = "" then defaultQuery else formQuery

/-- The dispatch of `page_for_query` (`views.py` lines 149-160) on the
engine's outcome: an engine failure renders `invalid_query.html`, a
non-empty id list goes to `page_for_list_of_ids` (guarded by
`len(note_ids) > 0`), an empty list renders `empty_result.html`. -/
def pageForQueryCore (env : ViewEnv) (result : Except QueryError (List String))
    (userQuery : String) : Option Page :=
  match result with
  | .error _ => some (.invalidQuery userQuery)
  | .ok noteIds =>
    if noteIds.length > 0 then
      (page_for_list_of_ids env noteIds userQuery).map .notes
    else
      some (.emptyResult userQuery)

/-- `page_for_query` (`views.py` lines 137-160): apply the caller-side
default, run the engine, dispatch on the outcome.  The engine returns a
set; the view layer receives it as a list (sorted here — the engine
guarantees no order). -/
def page_for_query (env : ViewEnv) (idx : IndexAdapter)
    (formQuery : String) : Option Page :=
  let userQuery := effectiveUserQuery formQuery
  pageForQueryCore env
    ((run idx userQuery).map (fun s => s.sort (· ≤ ·))) userQuery

/-! ## A concrete index for witnesses and scenario checks -/

/-- The concrete index of the spec's scenario (section 8):
`known_tag → {n1,n2}`, `python → {n1,n2,n3}`, `rust → {n2,n4}`. -/
def demoIdx : IndexAdapter :=
  ⟨fun t =>
    if t = "known_tag" then some {"n1", "n2"}
    else if t = "python" then some {"n1", "n2", "n3"}
    else if t = "rust" then some {"n2", "n4"}
    else none,
   {"n1", "n2", "n3", "n4"}⟩

/-- A concrete view environment: two note files exist, rendering and the
template are simple concrete functions. -/
def demoEnv : ViewEnv :=
  ⟨fun noteId =>
    if noteId = "n1" then some "# One\nalpha"
    else if noteId = "n2" then some "# Two\nbeta"
    else none,
   fun s => s,
   fun title content =>
     title ++ ": " ++ (match content with | some c => c | none => "None"),
   "http://localhost/"⟩

/-- A concrete tag database: the relation for `python` exists but holds
zero rows; no other relation exists. -/
def demoDb : String → Option (List String) :=
  fun t => if t = "python" then some [] else none

/-- A token is safe when any tag literal it carries lies in the safe
character class. -/
def tokenSafe : Token → Bool
  | .tagLit s => isSafeTagName s
  | _ => true

/-- A token sequence is well-formed when every token is safe. -/
def tokensWellFormed (ts : List Token) : Bool :=
  ts.all tokenSafe

/-! ## Helper lemmas -/

/-- Inversion for `<$>` on `Except` returning `ok`. -/
theorem except_map_ok {ε α β : Type} (f : α → β) (x : Except ε α) (b : β) :
    (f <$> x) = Except.ok b ↔ ∃ a, x = Except.ok a ∧ f a = b := by
  cases x <;> simp [Functor.map, Except.map]

/-- Inversion for `>>=` on `Except` returning `ok`. -/
theorem except_bind_ok {ε α β : Type} (x : Except ε α) (f : α → Except ε β)
    (b : β) :
    (x >>= f) = Except.ok b ↔ ∃ a, x = Except.ok a ∧ f a = Except.ok b := by
  cases x <;> simp [Bind.bind, Except.bind]

/-- Well-formedness of a token sequence unfolds over cons. -/
theorem tokensWellFormed_cons (t : Token) (ts : List Token) :
    tokensWellFormed (t :: ts) = (tokenSafe t && tokensWellFormed ts) := rfl

/-- Keyword classification always yields a safe token from a safe word. -/
theorem wordToToken_safe (w : String) (h : isSafeTagName w = true) :
    tokenSafe (wordToToken w) = true := by
  unfold wordToToken
  by_cases h1 : w = "AND"
  · simp [h1, tokenSafe]
  · by_cases h2 : w = "OR"
    · simp [h1, h2, tokenSafe]
    · by_cases h3 : w = "NOT"
      · simp [h1, h2, h3, tokenSafe]
      · simp [h1, h2, h3, tokenSafe, h]

/-- Flushing an accumulator of safe characters yields safe tokens. -/
theorem flushWord_wellFormed (word : List Char)
    (h : ∀ c ∈ word, isTagChar c = true) :
    tokensWellFormed (flushWord word) = true := by
  cases word with
  | nil => rfl
  | cons c cs =>
    have hsafe : isSafeTagName (String.mk ((c :: cs).reverse)) = true := by
      simp only [isSafeTagName, List.all_eq_true]
      intro x hx
      exact h x (List.mem_reverse.mp hx)
    simp only [flushWord, tokensWellFormed, List.all_cons, List.all_nil,
      Bool.and_true]
    exact wordToToken_safe _ hsafe

/-- Relative complements distribute over intersection (De Morgan on
finite sets). -/
theorem sdiff_inter_distrib (u s t : Finset String) :
    u \ (s ∩ t) = (u \ s) ∪ (u \ t) := by
  ext x
  simp only [Finset.mem_sdiff, Finset.mem_inter, Finset.mem_union]
  tauto

/-- A well-formed AST always evaluates successfully: unknown tags degrade
to the empty set and invalid tag names are excluded by well-formedness. -/
theorem evaluate_ok_of_wellFormed (idx : IndexAdapter) :
    ∀ A : AST, wellFormedAST A = true → ∃ s, evaluate idx A = .ok s := by
  intro A
  induction A with
  | leaf t =>
    intro h
    simp only [wellFormedAST] at h
    simp only [evaluate, IndexAdapter.lookup, h, if_true]
    cases idx.store t <;> simp
  | notN c ih =>
    intro h
    simp only [wellFormedAST] at h
    obtain ⟨s, hs⟩ := ih h
    exact ⟨idx.univ \ s, by simp only [evaluate, hs]; rfl⟩
  | andN l r ihl ihr =>
    intro h
    simp only [wellFormedAST, Bool.and_eq_true] at h
    obtain ⟨sl, hl⟩ := ihl h.1
    obtain ⟨sr, hr⟩ := ihr h.2
    exact ⟨sl ∩ sr, by simp only [evaluate, hl, hr]; rfl⟩
  | orN l r ihl ihr =>
    intro h
    simp only [wellFormedAST, Bool.and_eq_true] at h
    obtain ⟨sl, hl⟩ := ihl h.1
    obtain ⟨sr, hr⟩ := ihr h.2
    exact ⟨sl ∪ sr, by simp only [evaluate, hl, hr]; rfl⟩

/-- Folding `+` from a real string over defined contents never raises. -/
theorem reduceAdd_isSome (l : List (Option String)) :
    ∀ acc : String, (∀ x ∈ l, x.isSome = true) →
      ∃ s, reduceAdd (some acc) l = some (some s) := by
  induction l with
  | nil => intro acc _; exact ⟨acc, rfl⟩
  | cons x xs ih =>
    intro acc h
    have hx : x.isSome = true := h x (List.mem_cons_self x xs)
    obtain ⟨b, hb⟩ := Option.isSome_iff_exists.mp hx
    obtain ⟨s, hs⟩ := ih (acc ++ b) (fun y hy => h y (List.mem_cons_of_mem x hy))
    refine ⟨s, ?_⟩
    rw [hb]
    exact hs

/-- A read operation leaves the backing store unchanged. -/
theorem applyOp_of_isRead (idx : IndexAdapter) (op : StorageOp)
    (h : op.isRead = true) : applyOp idx op = idx := by
  cases op <;> simp_all [StorageOp.isRead, applyOp]

/-- A trace of reads leaves the backing store unchanged. -/
theorem applyOps_of_reads :
    ∀ (ops : List StorageOp) (idx : IndexAdapter),
      (∀ op ∈ ops, op.isRead = true) → applyOps idx ops = idx := by
  intro ops
  induction ops with
  | nil => intro idx _; rfl
  | cons op rest ih =>
    intro idx h
    have h1 : applyOp idx op = idx :=
      applyOp_of_isRead idx op (h op (List.mem_cons_self op rest))
    have h2 := ih idx (fun o ho => h o (List.mem_cons_of_mem op ho))
    calc applyOps idx (op :: rest)
        = applyOps (applyOp idx op) rest := rfl
      _ = applyOps idx rest := by rw [h1]
      _ = idx := h2

/-- Every token the Tokenizer produces is safe: tag literals are maximal
runs of safe characters, so the unsafe part of an input can only surface
as a `LexErr`, never inside a `tagLit`. -/
theorem tokenizeAux_wellFormed :
    ∀ (cs : List Char) (pos : Nat) (word : List Char) (ts : List Token),
      (∀ c ∈ word, isTagChar c = true) →
      tokenizeAux cs pos word = .ok ts → tokensWellFormed ts = true := by
  intro cs
  induction cs with
  | nil =>
    intro pos word ts hw hok
    simp only [tokenizeAux] at hok
    cases hok
    exact flushWord_wellFormed word hw
  | cons c rest ih =>
    intro pos word ts hw hok
    simp only [tokenizeAux] at hok
    by_cases h1 : isTagChar c = true
    · rw [if_pos h1] at hok
      refine ih (pos + 1) (c :: word) ts ?_ hok
      intro x hx
      rcases List.mem_cons.mp hx with rfl | hx
      · exact h1
      · exact hw x hx
    · rw [if_neg h1] at hok
      by_cases h2 : c = ' ' ∨ c = '\t' ∨ c = '\n'
      · rw [if_pos h2, except_map_ok] at hok
        obtain ⟨ts', hts', rfl⟩ := hok
        have h5 := ih (pos + 1) [] ts' (by intro x hx; simp at hx) hts'
        simp only [tokensWellFormed, List.all_append, Bool.and_eq_true]
        exact ⟨flushWord_wellFormed word hw, h5⟩
      · rw [if_neg h2] at hok
        by_cases h3 : c = '('
        · rw [if_pos h3, except_map_ok] at hok
          obtain ⟨ts', hts', rfl⟩ := hok
          have h5 := ih (pos + 1) [] ts' (by intro x hx; simp at hx) hts'
          simp only [tokensWellFormed, List.all_append, List.all_cons,
            Bool.and_eq_true]
          exact ⟨flushWord_wellFormed word hw, rfl, h5⟩
        · rw [if_neg h3] at hok
          by_cases h4 : c = ')'
          · rw [if_pos h4, except_map_ok] at hok
            obtain ⟨ts', hts', rfl⟩ := hok
            have h5 := ih (pos + 1) [] ts' (by intro x hx; simp at hx) hts'
            simp only [tokensWellFormed, List.all_append, List.all_cons,
              Bool.and_eq_true]
            exact ⟨flushWord_wellFormed word hw, rfl, h5⟩
          · rw [if_neg h4] at hok
            exact absurd hok (by simp)

/-- Whatever `tokenize` accepts is a well-formed token sequence. -/
theorem tokenize_wellFormed (raw : String) (ts : List Token)
    (h : tokenize raw = .ok ts) : tokensWellFormed ts = true :=
  tokenizeAux_wellFormed raw.data 0 [] ts (by intro c hc; simp at hc) h

/-- The recursive-descent parser preserves well-formedness: from a
well-formed token sequence, every function of the parser produces a
well-formed AST and leaves a well-formed remainder. -/
theorem parser_wellFormed :
    ∀ fuel : Nat,
      (∀ ts a rest, tokensWellFormed ts = true →
        parseExpr fuel ts = .ok (a, rest) →
        wellFormedAST a = true ∧ tokensWellFormed rest = true) ∧
      (∀ acc ts a rest, wellFormedAST acc = true →
        tokensWellFormed ts = true →
        parseExprLoop fuel acc ts = .ok (a, rest) →
        wellFormedAST a = true ∧ tokensWellFormed rest = true) ∧
      (∀ ts a rest, tokensWellFormed ts = true →
        parseTerm fuel ts = .ok (a, rest) →
        wellFormedAST a = true ∧ tokensWellFormed rest = true) ∧
      (∀ acc ts a rest, wellFormedAST acc = true →
        tokensWellFormed ts = true →
        parseTermLoop fuel acc ts = .ok (a, rest) →
        wellFormedAST a = true ∧ tokensWellFormed rest = true) ∧
      (∀ ts a rest, tokensWellFormed ts = true →
        parseFactor fuel ts = .ok (a, rest) →
        wellFormedAST a = true ∧ tokensWellFormed rest = true) := by
  intro fuel
  induction fuel with
  | zero =>
    refine ⟨?_, ?_, ?_, ?_, ?_⟩
    · intro ts a rest _ hok; simp [parseExpr] at hok
    · intro acc ts a rest _ _ hok; simp [parseExprLoop] at hok
    · intro ts a rest _ hok; simp [parseTerm] at hok
    · intro acc ts a rest _ _ hok; simp [parseTermLoop] at hok
    · intro ts a rest _ hok; simp [parseFactor] at hok
  | succ n ih =>
    obtain ⟨ihE, ihEL, ihT, ihTL, ihF⟩ := ih
    refine ⟨?_, ?_, ?_, ?_, ?_⟩
    · intro ts a rest hts hok
      simp only [parseExpr] at hok
      rw [except_bind_ok] at hok
      obtain ⟨⟨a1, rest1⟩, h1, h2⟩ := hok
      obtain ⟨ha1, hrest1⟩ := ihT ts a1 rest1 hts h1
      exact ihEL a1 rest1 a rest ha1 hrest1 h2
    · intro acc ts a rest hacc hts hok
      cases ts with
      | nil =>
        simp only [parseExprLoop] at hok
        cases hok
        exact ⟨hacc, hts⟩
      | cons t ts' =>
        cases t
        case orTok =>
          simp only [parseExprLoop] at hok
          rw [except_bind_ok] at hok
          obtain ⟨⟨b, rest1⟩, h1, h2⟩ := hok
          rw [tokensWellFormed_cons, Bool.and_eq_true] at hts
          obtain ⟨hb, hrest1⟩ := ihT ts' b rest1 hts.2 h1
          refine ihEL (.orN acc b) rest1 a rest ?_ hrest1 h2
          simp [wellFormedAST, hacc, hb]
        all_goals
          simp only [parseExprLoop] at hok
        all_goals
          cases hok
        all_goals
          exact ⟨hacc, hts⟩
    · intro ts a rest hts hok
      simp only [parseTerm] at hok
      rw [except_bind_ok] at hok
      obtain ⟨⟨a1, rest1⟩, h1, h2⟩ := hok
      obtain ⟨ha1, hrest1⟩ := ihF ts a1 rest1 hts h1
      exact ihTL a1 rest1 a rest ha1 hrest1 h2
    · intro acc ts a rest hacc hts hok
      cases ts with
      | nil =>
        simp only [parseTermLoop] at hok
        cases hok
        exact ⟨hacc, hts⟩
      | cons t ts' =>
        cases t
        case andTok =>
          simp only [parseTermLoop] at hok
          rw [except_bind_ok] at hok
          obtain ⟨⟨b, rest1⟩, h1, h2⟩ := hok
          rw [tokensWellFormed_cons, Bool.and_eq_true] at hts
          obtain ⟨hb, hrest1⟩ := ihF ts' b rest1 hts.2 h1
          refine ihTL (.andN acc b) rest1 a rest ?_ hrest1 h2
          simp [wellFormedAST, hacc, hb]
        all_goals
          simp only [parseTermLoop] at hok
        all_goals
          cases hok
        all_goals
          exact ⟨hacc, hts⟩
    · intro ts a rest hts hok
      cases ts with
      | nil => simp [parseFactor] at hok
      | cons t ts' =>
        rw [tokensWellFormed_cons, Bool.and_eq_true] at hts
        cases t
        case notTok =>
          simp only [parseFactor] at hok
          rw [except_map_ok] at hok
          obtain ⟨⟨b, rest1⟩, h1, h2⟩ := hok
          cases h2
          obtain ⟨hb, hrest1⟩ := ihF ts' b rest1 hts.2 h1
          exact ⟨by simpa [wellFormedAST] using hb, hrest1⟩
        case lparen =>
          simp only [parseFactor] at hok
          rw [except_bind_ok] at hok
          obtain ⟨⟨a1, rest1⟩, h1, h2⟩ := hok
          obtain ⟨ha1, hrest1⟩ := ihE ts' a1 rest1 hts.2 h1
          cases rest1 with
          | nil => simp at h2
          | cons u us =>
            rw [tokensWellFormed_cons, Bool.and_eq_true] at hrest1
            cases u
            case rparen =>
              simp only [Except.ok.injEq, Prod.mk.injEq] at h2
              obtain ⟨rfl, rfl⟩ := h2
              exact ⟨ha1, hrest1.2⟩
            all_goals simp at h2
        case tagLit s =>
          simp only [parseFactor] at hok
          cases hok
          exact ⟨hts.1, hts.2⟩
        case andTok => simp [parseFactor] at hok
        case orTok => simp [parseFactor] at hok
        case rparen => simp [parseFactor] at hok

/-- Whatever `parse` accepts from a well-formed token sequence is a
well-formed AST. -/
theorem parse_wellFormed (ts : List Token) (a : AST)
    (hts : tokensWellFormed ts = true) (h : parse ts = .ok a) :
    wellFormedAST a = true := by
  unfold parse at h
  rw [except_bind_ok] at h
  obtain ⟨⟨a1, rest⟩, h1, h2⟩ := h
  obtain ⟨ha1, -⟩ := (parser_wellFormed (3 * ts.length + 3)).1 ts a1 rest hts h1
  cases rest with
  | nil => cases h2; exact ha1
  | cons u us => simp at h2

/-- The facade can never fail with `invalidTagName`: the tokenizer only
emits safe tag literals, the parser preserves them, and a well-formed AST
always evaluates successfully. -/
theorem run_never_invalidTagName (idx : IndexAdapter) (raw t : String) :
    run idx raw ≠ .error (.invalidTagName t) := by
  intro h
  unfold run at h
  split at h
  · simp at h
  · rename_i ts htok
    split at h
    · simp at h
    · rename_i ast hparse
      split at h
      · rename_i t' heval
        obtain ⟨s, hs⟩ := evaluate_ok_of_wellFormed idx ast
          (parse_wellFormed ts ast (tokenize_wellFormed raw ts htok) hparse)
        rw [hs] at heval
        simp at heval
      · simp at h

/-! ## Claim theorems -/

/-- C1: `page_for_tag` (views.py line 127, app_runner.py line 89)
interpolates the raw route tag into the executed SQL string with no
safe-character-class validation: for the unsafe input
`"tag; DROP TABLE x"` — which fails the safe class and which the engine's
tokenizer rejects with a `LexErr` — the executed storage query string
contains the raw untrusted substring verbatim. -/
theorem c1_page_for_tag_interpolates_raw_tag :
    isSafeTagName "tag; DROP TABLE x" = false ∧
    pageForTagSQL "tag; DROP TABLE x" = "SELECT note_id FROM tag; DROP TABLE x" ∧
    appRunnerPageForTagSQL "tag; DROP TABLE x" =
      "SELECT note_title FROM tag; DROP TABLE x" ∧
    tokenize "tag; DROP TABLE x" =
      .error ⟨3, "character outside the tag-name class"⟩ :=
  ⟨by decide, by decide, by decide, by decide⟩

/-- C2: a well-formed but unknown tag evaluates to the empty set rather
than an error, and `run "known_tag AND nonexistent_tag"` succeeds with the
empty set on the index where `known_tag ↦ {n1, n2}` and `nonexistent_tag`
is absent. -/
theorem c2_unknown_tag_degrades_to_empty :
    (∀ (idx : IndexAdapter) (t : String), isSafeTagName t = true →
        idx.store t = none → evaluate idx (.leaf t) = .ok ∅) ∧
    run demoIdx "known_tag AND nonexistent_tag" = .ok ∅ := by
  constructor
  · intro idx t hsafe hstore
    simp [evaluate, IndexAdapter.lookup, hsafe, hstore]
  · decide

/-- C2 witness: `nonexistent_tag` is well-formed, absent from the demo
index, and its leaf evaluates to the empty set. -/
theorem c2_unknown_tag_degrades_to_empty_witness :
    isSafeTagName "nonexistent_tag" = true ∧
    demoIdx.store "nonexistent_tag" = none ∧
    evaluate demoIdx (.leaf "nonexistent_tag") = .ok ∅ :=
  ⟨by decide, by decide,
   c2_unknown_tag_degrades_to_empty.1 demoIdx "nonexistent_tag"
     (by decide) (by decide)⟩

/-- C4: the empty string is a `ParseErr` for the engine on any index (the
tokenizer yields no tokens and the parser rejects the empty sequence), and
the default query is applied only by the caller `page_for_query` before
the engine is invoked: an empty form query is replaced by `defaultQuery`,
a non-empty one is passed through unchanged. -/
theorem c4_empty_query_parse_error_and_caller_side_default :
    (∀ idx : IndexAdapter, run idx "" = .error (.parseError ⟨"operand", []⟩)) ∧
    tokenize "" = .ok [] ∧
    parse [] = .error ⟨"operand", []⟩ ∧
    effectiveUserQuery "" = defaultQuery ∧
    (∀ q : String, q ≠ "" → effectiveUserQuery q = q) := by
  refine ⟨fun idx => rfl, by decide, by decide, by decide, ?_⟩
  intro q hq
  simp [effectiveUserQuery, hq]

/-- C4 witness: the engine rejects the empty string on the demo index and
the caller-side default leaves `"python"` untouched. -/
theorem c4_empty_query_parse_error_witness :
    run demoIdx "" = .error (.parseError ⟨"operand", []⟩) ∧
    ("python" ≠ "" ∧ effectiveUserQuery "python" = "python") :=
  ⟨c4_empty_query_parse_error_and_caller_side_default.1 demoIdx,
   by decide,
   c4_empty_query_parse_error_and_caller_side_default.2.2.2.2 "python" (by decide)⟩

/-- Unfolding lemma: NOT evaluates its child, then complements. -/
theorem evaluate_notN_eq (idx : IndexAdapter) (c : AST) :
    evaluate idx (.notN c) =
      Except.bind (evaluate idx c) (fun s => .ok (idx.univ \ s)) := rfl

/-- Unfolding lemma: AND evaluates left, then right, then intersects. -/
theorem evaluate_andN_eq (idx : IndexAdapter) (l r : AST) :
    evaluate idx (.andN l r) =
      Except.bind (evaluate idx l) (fun sl =>
        Except.bind (evaluate idx r) (fun sr => .ok (sl ∩ sr))) := rfl

/-- Unfolding lemma: OR evaluates left, then right, then unions. -/
theorem evaluate_orN_eq (idx : IndexAdapter) (l r : AST) :
    evaluate idx (.orN l r) =
      Except.bind (evaluate idx l) (fun sl =>
        Except.bind (evaluate idx r) (fun sr => .ok (sl ∪ sr))) := rfl

/-- On well-formed ASTs the left-to-right and right-to-left evaluators
agree. -/
theorem evaluate_eq_evaluateRL (idx : IndexAdapter) :
    ∀ A : AST, wellFormedAST A = true → evaluate idx A = evaluateRL idx A := by
  intro A
  induction A with
  | leaf t => intro _; rfl
  | notN c ih =>
    intro h
    simp only [wellFormedAST] at h
    obtain ⟨s, hs⟩ := evaluate_ok_of_wellFormed idx c h
    have hs' : evaluateRL idx c = .ok s := by rw [← ih h]; exact hs
    rw [evaluate_notN_eq, hs]
    show Except.ok (idx.univ \ s) = evaluateRL idx (.notN c)
    simp only [evaluateRL, hs']
    rfl
  | andN l r ihl ihr =>
    intro h
    simp only [wellFormedAST, Bool.and_eq_true] at h
    obtain ⟨sl, hl⟩ := evaluate_ok_of_wellFormed idx l h.1
    obtain ⟨sr, hr⟩ := evaluate_ok_of_wellFormed idx r h.2
    have hl' : evaluateRL idx l = .ok sl := by rw [← ihl h.1]; exact hl
    have hr' : evaluateRL idx r = .ok sr := by rw [← ihr h.2]; exact hr
    rw [evaluate_andN_eq, hl]
    show Except.bind (evaluate idx r) (fun sr => .ok (sl ∩ sr)) =
      evaluateRL idx (.andN l r)
    rw [hr]
    show Except.ok (sl ∩ sr) = evaluateRL idx (.andN l r)
    simp only [evaluateRL, hl', hr']
    show Except.ok (sl ∩ sr) = Except.ok (sr ∩ sl)
    rw [Finset.inter_comm]
  | orN l r ihl ihr =>
    intro h
    simp only [wellFormedAST, Bool.and_eq_true] at h
    obtain ⟨sl, hl⟩ := evaluate_ok_of_wellFormed idx l h.1
    obtain ⟨sr, hr⟩ := evaluate_ok_of_wellFormed idx r h.2
    have hl' : evaluateRL idx l = .ok sl := by rw [← ihl h.1]; exact hl
    have hr' : evaluateRL idx r = .ok sr := by rw [← ihr h.2]; exact hr
    rw [evaluate_orN_eq, hl]
    show Except.bind (evaluate idx r) (fun sr => .ok (sl ∪ sr)) =
      evaluateRL idx (.orN l r)
    rw [hr]
    show Except.ok (sl ∪ sr) = evaluateRL idx (.orN l r)
    simp only [evaluateRL, hl', hr']
    show Except.ok (sl ∪ sr) = Except.ok (sr ∪ sl)
    rw [Finset.union_comm]

/-- C6: on a fixed index, evaluation of a well-formed AST is
deterministic, and evaluating independent subtrees in the opposite order
(`evaluateRL`) yields the same result set. -/
theorem c6_evaluation_deterministic_order_independent :
    ∀ (idx : IndexAdapter) (A : AST), wellFormedAST A = true →
      evaluate idx A = evaluate idx A ∧ evaluate idx A = evaluateRL idx A :=
  fun idx A h => ⟨rfl, evaluate_eq_evaluateRL idx A h⟩

/-- C6 witness: a concrete well-formed AST over the demo index evaluates
identically in both orders. -/
theorem c6_evaluation_deterministic_order_independent_witness :
    wellFormedAST (.andN (.leaf "python") (.notN (.leaf "rust"))) = true ∧
    evaluate demoIdx (.andN (.leaf "python") (.notN (.leaf "rust"))) =
      evaluateRL demoIdx (.andN (.leaf "python") (.notN (.leaf "rust"))) :=
  ⟨by decide,
   (c6_evaluation_deterministic_order_independent demoIdx
     (.andN (.leaf "python") (.notN (.leaf "rust"))) (by decide)).2⟩

/-- C7: De Morgan's law holds for evaluation: complementing an
intersection equals the union of the complements, for all tag leaves and
any index. -/
theorem c7_de_morgan :
    ∀ (idx : IndexAdapter) (a b : String),
      evaluate idx (.notN (.andN (.leaf a) (.leaf b))) =
        evaluate idx (.orN (.notN (.leaf a)) (.notN (.leaf b))) := by
  intro idx a b
  rw [evaluate_notN_eq, evaluate_andN_eq, evaluate_orN_eq,
    evaluate_notN_eq, evaluate_notN_eq]
  cases ha : evaluate idx (.leaf a) with
  | error e => simp [ha, Except.bind]
  | ok sa =>
    cases hb : evaluate idx (.leaf b) with
    | error e => simp [ha, hb, Except.bind]
    | ok sb => simp [ha, hb, Except.bind, sdiff_inter_distrib]

/-- Every storage operation the instrumented evaluator issues is a read. -/
theorem evaluateT_trace_reads (idx : IndexAdapter) :
    ∀ A : AST, ∀ op ∈ (evaluateT idx A).2, op.isRead = true := by
  intro A
  induction A with
  | leaf t =>
    intro op hop
    by_cases hs : isSafeTagName t
    · simp only [evaluateT, hs, if_true] at hop
      cases hst : idx.store t <;>
        simp only [hst, List.mem_singleton] at hop <;>
        subst hop <;> rfl
    · simp [evaluateT, hs] at hop
  | notN c ih =>
    intro op hop
    rcases h : evaluateT idx c with ⟨r, ops⟩
    rw [h] at ih
    simp only [evaluateT, h] at hop
    cases r with
    | ok s =>
      simp only [List.mem_append, List.mem_singleton] at hop
      rcases hop with hop | hop
      · exact ih op hop
      · subst hop; rfl
    | error e => exact ih op hop
  | andN l r ihl ihr =>
    intro op hop
    rcases hl : evaluateT idx l with ⟨rl, opsl⟩
    rw [hl] at ihl
    simp only [evaluateT, hl] at hop
    cases rl with
    | error e => exact ihl op hop
    | ok sl =>
      rcases hr : evaluateT idx r with ⟨rr, opsr⟩
      rw [hr] at ihr
      simp only [hr] at hop
      cases rr with
      | error e =>
        simp only [List.mem_append] at hop
        rcases hop with hop | hop
        · exact ihl op hop
        · exact ihr op hop
      | ok sr =>
        simp only [List.mem_append] at hop
        rcases hop with hop | hop
        · exact ihl op hop
        · exact ihr op hop
  | orN l r ihl ihr =>
    intro op hop
    rcases hl : evaluateT idx l with ⟨rl, opsl⟩
    rw [hl] at ihl
    simp only [evaluateT, hl] at hop
    cases rl with
    | error e => exact ihl op hop
    | ok sl =>
      rcases hr : evaluateT idx r with ⟨rr, opsr⟩
      rw [hr] at ihr
      simp only [hr] at hop
      cases rr with
      | error e =>
        simp only [List.mem_append] at hop
        rcases hop with hop | hop
        · exact ihl op hop
        · exact ihr op hop
      | ok sr =>
        simp only [List.mem_append] at hop
        rcases hop with hop | hop
        · exact ihl op hop
        · exact ihr op hop

/-- The instrumented evaluator computes the same result as the plain
evaluator. -/
theorem evaluateT_fst (idx : IndexAdapter) :
    ∀ A : AST, (evaluateT idx A).1 = evaluate idx A := by
  intro A
  induction A with
  | leaf t =>
    by_cases hs : isSafeTagName t
    · simp only [evaluateT, evaluate, IndexAdapter.lookup, hs, if_true]
      cases idx.store t <;> rfl
    · simp [evaluateT, evaluate, IndexAdapter.lookup, hs]
  | notN c ih =>
    rcases h : evaluateT idx c with ⟨r, ops⟩
    rw [h] at ih
    rw [evaluate_notN_eq, ← ih]
    cases r with
    | ok s => simp [evaluateT, h, Except.bind]
    | error e => simp [evaluateT, h, Except.bind]
  | andN l r ihl ihr =>
    rcases hl : evaluateT idx l with ⟨rl, opsl⟩
    rw [hl] at ihl
    rw [evaluate_andN_eq, ← ihl]
    cases rl with
    | error e => simp [evaluateT, hl, Except.bind]
    | ok sl =>
      rcases hr : evaluateT idx r with ⟨rr, opsr⟩
      rw [hr] at ihr
      rw [← ihr]
      cases rr with
      | error e => simp [evaluateT, hl, hr, Except.bind]
      | ok sr => simp [evaluateT, hl, hr, Except.bind]
  | orN l r ihl ihr =>
    rcases hl : evaluateT idx l with ⟨rl, opsl⟩
    rw [hl] at ihl
    rw [evaluate_orN_eq, ← ihl]
    cases rl with
    | error e => simp [evaluateT, hl, Except.bind]
    | ok sl =>
      rcases hr : evaluateT idx r with ⟨rr, opsr⟩
      rw [hr] at ihr
      rw [← ihr]
      cases rr with
      | error e => simp [evaluateT, hl, hr, Except.bind]
      | ok sr => simp [evaluateT, hl, hr, Except.bind]

/-- C8: evaluating any query is read-only against the backing store: the
instrumented evaluator computes exactly what the evaluator computes, every
storage operation in its trace is a read, and replaying the trace through
the storage state machine leaves the store unchanged. -/
theorem c8_engine_never_writes :
    ∀ (idx : IndexAdapter) (A : AST),
      (evaluateT idx A).1 = evaluate idx A ∧
      (∀ op ∈ (evaluateT idx A).2, op.isRead = true) ∧
      applyOps idx (evaluateT idx A).2 = idx :=
  fun idx A =>
    ⟨evaluateT_fst idx A, evaluateT_trace_reads idx A,
     applyOps_of_reads (evaluateT idx A).2 idx (evaluateT_trace_reads idx A)⟩

/-- C8 witness: the trace of `NOT python` on the demo index is the two
reads `SELECT FROM python` and the universe query, each classified as a
read, and replaying it leaves the demo store intact on `rust`. -/
theorem c8_engine_never_writes_witness :
    (evaluateT demoIdx (.notN (.leaf "python"))).2 =
      [.selectFrom "python", .selectUniverse] ∧
    StorageOp.isRead (.selectFrom "python") = true ∧
    (applyOps demoIdx (evaluateT demoIdx (.notN (.leaf "python"))).2).store "rust" =
      demoIdx.store "rust" :=
  ⟨by decide,
   (c8_engine_never_writes demoIdx (.notN (.leaf "python"))).2.1
     (.selectFrom "python") (by decide),
   by rw [(c8_engine_never_writes demoIdx (.notN (.leaf "python"))).2.2]⟩

/-- A note converts to `none` exactly when its Markdown file is absent
(shared characterization of `convert_note_from_markdown_to_html`). -/
theorem convert_none_iff (env : ViewEnv) (noteId : String) :
    convert_note_from_markdown_to_html env noteId = none ↔
      env.files noteId = none := by
  unfold convert_note_from_markdown_to_html
  cases h : env.files noteId <;> simp [h]

/-- C3: the view layer renders an engine failure as the
`invalid_query.html` page and an empty success as the `empty_result.html`
page, both through `page_for_query`; those two pages are never equal, so
"syntactically invalid" and "valid but no matches" are never conflated. -/
theorem c3_invalid_query_never_conflated_with_empty :
    (∀ (env : ViewEnv) (q : String) (e : QueryError),
        pageForQueryCore env (.error e) q = some (.invalidQuery q)) ∧
    (∀ (env : ViewEnv) (q : String),
        pageForQueryCore env (.ok []) q = some (.emptyResult q)) ∧
    (∀ (env : ViewEnv) (idx : IndexAdapter) (formQuery : String)
        (e : QueryError),
        run idx (effectiveUserQuery formQuery) = .error e →
        page_for_query env idx formQuery =
          some (.invalidQuery (effectiveUserQuery formQuery))) ∧
    (∀ (env : ViewEnv) (idx : IndexAdapter) (formQuery : String),
        run idx (effectiveUserQuery formQuery) = .ok ∅ →
        page_for_query env idx formQuery =
          some (.emptyResult (effectiveUserQuery formQuery))) ∧
    (∀ q q' : String, Page.invalidQuery q ≠ Page.emptyResult q') := by
  refine ⟨fun env q e => rfl, fun env q => rfl, ?_, ?_, by intro q q'; simp⟩
  · intro env idx formQuery e h
    simp only [page_for_query, h]
    rfl
  · intro env idx formQuery h
    simp only [page_for_query, h, Except.map, Finset.sort_empty]
    rfl

/-- C3 witness: on the demo index, `"python AND"` is surfaced as the
invalid-query page and `"known_tag AND nonexistent_tag"` as the
empty-result page. -/
theorem c3_invalid_query_never_conflated_with_empty_witness :
    run demoIdx (effectiveUserQuery "python AND") =
      .error (.parseError ⟨"operand", []⟩) ∧
    page_for_query demoEnv demoIdx "python AND" =
      some (.invalidQuery (effectiveUserQuery "python AND")) ∧
    run demoIdx (effectiveUserQuery "known_tag AND nonexistent_tag") = .ok ∅ ∧
    page_for_query demoEnv demoIdx "known_tag AND nonexistent_tag" =
      some (.emptyResult (effectiveUserQuery "known_tag AND nonexistent_tag")) :=
  ⟨by decide,
   c3_invalid_query_never_conflated_with_empty.2.2.1 demoEnv demoIdx
     "python AND" (.parseError ⟨"operand", []⟩) (by decide),
   by decide,
   c3_invalid_query_never_conflated_with_empty.2.2.2.1 demoEnv demoIdx
     "known_tag AND nonexistent_tag" (by decide)⟩

/-- C9: `page_for_list_of_ids` raises (is `none`) on the empty list and is
defined on any non-empty list of existing notes; `page_for_query` reaches
it only under the `len(note_ids) > 0` guard, rendering `empty_result.html`
otherwise; `page_for_tag` calls it unguarded, so a known tag whose relation
has zero rows raises. -/
theorem c9_empty_fold_guarded_in_query_not_in_tag :
    (∀ (env : ViewEnv) (title : String),
        page_for_list_of_ids env [] title = none) ∧
    (∀ (env : ViewEnv) (ids : List String) (title : String),
        ids ≠ [] → (∀ i ∈ ids, (env.files i).isSome = true) →
        (page_for_list_of_ids env ids title).isSome = true) ∧
    (∀ (env : ViewEnv) (ids : List String) (q : String), ids.length > 0 →
        pageForQueryCore env (.ok ids) q =
          (page_for_list_of_ids env ids q).map Page.notes) ∧
    (∀ (env : ViewEnv) (q : String),
        pageForQueryCore env (.ok []) q = some (.emptyResult q)) ∧
    (∀ (env : ViewEnv) (db : String → Option (List String)) (tag : String),
        db tag = some [] → page_for_tag env db tag = none) := by
  refine ⟨fun env title => rfl, ?_, ?_, fun env q => rfl, ?_⟩
  · intro env ids title hne hfiles
    cases ids with
    | nil => exact absurd rfl hne
    | cons i is =>
      have hconv : ∀ j ∈ i :: is,
          (convert_note_from_markdown_to_html env j).isSome = true := by
        intro j hj
        have hf := hfiles j hj
        rw [Option.isSome_iff_ne_none] at hf ⊢
        intro hn
        exact hf ((convert_none_iff env j).mp hn)
      obtain ⟨c, hc⟩ := Option.isSome_iff_exists.mp
        (hconv i (List.mem_cons_self i is))
      have hrest : ∀ x ∈ is.map (convert_note_from_markdown_to_html env),
          x.isSome = true := by
        intro x hx
        obtain ⟨j, hj, rfl⟩ := List.mem_map.mp hx
        exact hconv j (List.mem_cons_of_mem i hj)
      obtain ⟨s, hs⟩ := reduceAdd_isSome
        (is.map (convert_note_from_markdown_to_html env)) c hrest
      simp only [page_for_list_of_ids, List.map_cons, hc, hs, Option.map_some]
      rfl
  · intro env ids q h
    simp [pageForQueryCore, h]
  · intro env db tag h
    simp [page_for_tag, h, page_for_list_of_ids]

/-- C9 witness: two existing notes render fine, while the zero-row
`python` relation of the demo database makes `page_for_tag` raise. -/
theorem c9_empty_fold_guarded_in_query_not_in_tag_witness :
    (["n1", "n2"] ≠ ([] : List String)) ∧
    (page_for_list_of_ids demoEnv ["n1", "n2"] "T").isSome = true ∧
    demoDb "python" = some [] ∧
    page_for_tag demoEnv demoDb "python" = none :=
  ⟨by decide,
   c9_empty_fold_guarded_in_query_not_in_tag.2.1 demoEnv ["n1", "n2"] "T"
     (by decide) (by decide),
   by decide,
   c9_empty_fold_guarded_in_query_not_in_tag.2.2.2.2 demoEnv demoDb "python"
     (by decide)⟩

/-- C10: `convert_note_from_markdown_to_html` returns `none` exactly when
the Markdown file for the compressed note id does not exist, and in that
case `page_with_note` renders the 404 template; when the file exists it
renders a notes page. -/
theorem c10_missing_note_renders_404 :
    (∀ (env : ViewEnv) (noteId : String),
        convert_note_from_markdown_to_html env noteId = none ↔
          env.files noteId = none) ∧
    (∀ (env : ViewEnv) (compress : String → String) (noteTitle : String),
        env.files (compress noteTitle) = none →
        page_with_note env compress noteTitle = .notFound) ∧
    (∀ (env : ViewEnv) (compress : String → String) (noteTitle : String)
        (c : String),
        env.files (compress noteTitle) = some c →
        ∃ h, page_with_note env compress noteTitle = .notes h) := by
  refine ⟨convert_none_iff, ?_, ?_⟩
  · intro env compress noteTitle h
    have hc := (convert_none_iff env (compress noteTitle)).mpr h
    simp [page_with_note, hc]
  · intro env compress noteTitle c h
    simp only [page_with_note, convert_note_from_markdown_to_html, h]
    exact ⟨_, rfl⟩

/-- C10 witness: a missing note id renders the 404 page, an existing one a
notes page, on the concrete environment. -/
theorem c10_missing_note_renders_404_witness :
    demoEnv.files "missing" = none ∧
    page_with_note demoEnv (fun t => t) "missing" = .notFound ∧
    demoEnv.files "n1" = some "# One\nalpha" ∧
    (∃ h, page_with_note demoEnv (fun t => t) "n1" = .notes h) :=
  ⟨by decide,
   c10_missing_note_renders_404.2.1 demoEnv (fun t => t) "missing" (by decide),
   by decide,
   c10_missing_note_renders_404.2.2 demoEnv (fun t => t) "n1" "# One\nalpha"
     (by decide)⟩

/-- C5: `"a OR b AND c"` parses to the same AST as `"a OR (b AND c)"`
— namely `Or(a, And(b, c))` — and to a different AST than
`"(a OR b) AND c"`. -/
theorem c5_precedence_and_over_or :
    parseQuery "a OR b AND c" = parseQuery "a OR (b AND c)" ∧
    parseQuery "a OR b AND c" ≠ parseQuery "(a OR b) AND c" ∧
    parseQuery "a OR b AND c" =
      .ok (.orN (.leaf "a") (.andN (.leaf "b") (.leaf "c"))) ∧
    parseQuery "(a OR b) AND c" =
      .ok (.andN (.orN (.leaf "a") (.leaf "b")) (.leaf "c")) :=
  ⟨by decide, by decide, by decide, by decide⟩

end ReadingBricks
